import Mathlib

/-!
A Lean model of the netflix catalog query service (FastAPI + SQLAlchemy).

The persistent store is modelled as a `List NetflixContent` in insertion
order.  SQL nullable text columns become `Option String`; SQL `NULL`
propagation in `col != ''` filters and `ILIKE` matches is modelled
explicitly (a `none` field never matches).  The pandas / SQLAlchemy bulk
loader (`app/services/data_loader.py`) is modelled as a batched fold with
explicit committed/pending state; an abstract `fails` predicate stands for
"processing this row raises" (parse or store error), which the source
handles with `except Exception: db.rollback(); raise`.
-/

/-- Mirror of the `netflix_content` table (`app/models/netflix.py`).
All columns except `show_id` are nullable.  The surrogate integer primary
key is omitted: it is only used by the lookup-by-id endpoint. -/
structure NetflixContent where
  show_id : String
  type : Option String
  title : Option String
  director : Option String
  cast : Option String
  country : Option String
  date_added : Option String
  release_year : Option Int
  rating : Option String
  duration : Option String
  listed_in : Option String
  description : Option String
deriving DecidableEq

/-- Splitting a character list on a separator, with Python `str.split`
semantics: `n` separators yield `n + 1` (possibly empty) groups. -/
def splitChar (sep : Char) : List Char → List (List Char)
  | [] => [[]]
  | c :: rest =>
    if c = sep then [] :: splitChar sep rest
    else
      match splitChar sep rest with
      | [] => [[c]]
      | g :: gs => (c :: g) :: gs

/-- Python's `str.strip()`: remove leading and trailing whitespace. -/
def pyStrip (s : String) : String :=
  ⟨((s.data.dropWhile Char.isWhitespace).reverse.dropWhile Char.isWhitespace).reverse⟩

/-- Python's `str.split(sep)` for a one-character separator. -/
def pySplit (sep : Char) (s : String) : List String :=
  (splitChar sep s.data).map fun g => ⟨g⟩

/-- Lexicographic comparison of character lists by code point, the order
Python's `sorted` uses on strings. -/
def lexLE : List Char → List Char → Bool
  | [], _ => true
  | _ :: _, [] => false
  | a :: as, b :: bs => if a = b then lexLE as bs else decide (a < b)

/-- Python's `<=` on strings. -/
def strLE (a b : String) : Bool := lexLE a.data b.data

/-- `strLE` as a relation, for use with `List.insertionSort`. -/
def strLe (a b : String) : Prop := strLE a b = true

instance : DecidableRel strLe := fun a b =>
  decidable_of_iff (strLE a b = true) Iff.rfl

instance : IsTotal String strLe :=
  ⟨fun x y => by
    obtain ⟨as⟩ := x
    obtain ⟨cs⟩ := y
    show lexLE as cs = true ∨ lexLE cs as = true
    induction as generalizing cs with
    | nil => exact Or.inl rfl
    | cons a as ih =>
      cases cs with
      | nil => exact Or.inr rfl
      | cons b bs =>
        by_cases hab : a = b
        · subst hab
          rcases ih bs with h | h
          · exact Or.inl (by simpa [lexLE] using h)
          · exact Or.inr (by simpa [lexLE] using h)
        · rcases lt_or_gt_of_ne hab with h | h
          · exact Or.inl (by simp [lexLE, hab, h])
          · exact Or.inr (by simp [lexLE, Ne.symm hab, h])⟩

instance : IsTrans String strLe :=
  ⟨fun x y z => by
    obtain ⟨as⟩ := x
    obtain ⟨bs0⟩ := y
    obtain ⟨cs0⟩ := z
    show lexLE as bs0 = true → lexLE bs0 cs0 = true → lexLE as cs0 = true
    induction as generalizing bs0 cs0 with
    | nil => intro _ _; rfl
    | cons a as ih =>
      cases bs0 with
      | nil => intro h1; simp [lexLE] at h1
      | cons b bs =>
        cases cs0 with
        | nil => intro _ h2; simp [lexLE] at h2
        | cons c cs =>
          intro h1 h2
          by_cases hab : a = b
          · subst hab
            simp only [lexLE, if_pos rfl] at h1
            by_cases hac : a = c
            · subst hac
              simp only [lexLE, if_pos rfl] at h2 ⊢
              exact ih bs cs h1 h2
            · simpa [lexLE, hac] using h2
          · simp only [lexLE, if_neg hab, decide_eq_true_eq] at h1
            by_cases hbc : b = c
            · subst hbc
              simp [lexLE, hab, h1]
            · simp only [lexLE, if_neg hbc, decide_eq_true_eq] at h2
              have hac : a < c := lt_trans h1 h2
              simp [lexLE, ne_of_lt hac, hac]⟩

/-- Models `db.query(col).filter(col != '')` on a nullable column followed by
the Python `if value:` guard, and then `[v.strip() for v in value.split(',')]`:
a `NULL` or empty field yields no tokens, otherwise the comma-split,
whitespace-trimmed segments (empty segments included, as in the source). -/
def tokenizeField (v : Option String) : List String :=
  match v with
  | none => []
  | some s => if s = "" then [] else (pySplit ',' s).map pyStrip

/-- Models the SQL filter `col != ''` on a nullable text column: `NULL` and
the empty string are dropped. -/
def nonEmptyOpt (v : Option String) : Option String :=
  match v with
  | none => none
  | some s => if s = "" then none else some s

/-- Python's `sorted` on strings (lexicographic by code point). -/
def sortStrings (l : List String) : List String :=
  l.insertionSort strLe

/-- The ordering used by `sorted(counts.items(), key=lambda x: x[1], reverse=True)`:
counts descending. -/
def countGE (a b : String × Nat) : Prop := b.2 ≤ a.2

instance : DecidableRel countGE := fun a b => Nat.decLe b.2 a.2

instance : IsTotal (String × Nat) countGE := ⟨fun a b => Nat.le_total b.2 a.2⟩

instance : IsTrans (String × Nat) countGE := ⟨fun _ _ _ hab hbc => Nat.le_trans hbc hab⟩

/-- Python's `sorted(..., key=lambda x: x[1], reverse=True)`. -/
def sortPairsDesc (l : List (String × Nat)) : List (String × Nat) :=
  l.insertionSort countGE

/-- Models `category_counts[cat] = category_counts.get(cat, 0) + 1` on a
Python dict, represented as an insertion-ordered association list. -/
def bumpCount (m : List (String × Nat)) (t : String) : List (String × Nat) :=
  if m.any fun p => p.1 = t then
    m.map fun p => if p.1 = t then (p.1, p.2 + 1) else p
  else
    m ++ [(t, 1)]

/-- The accumulated per-token frequency dict of `get_statistics`
(`data_loader.py` lines 126-135 / router lines 199-208), before sorting and
top-20 truncation. -/
def category_counts (db : List NetflixContent) : List (String × Nat) :=
  db.foldl (fun m r => (tokenizeField r.listed_in).foldl bumpCount m) []

/-- Per-rating frequency dict, modelling the SQL
`group_by(rating)` / `count` over rows with `rating != ''`. -/
def rating_counts (db : List NetflixContent) : List (String × Nat) :=
  ((db.map fun r => r.rating).filterMap nonEmptyOpt).foldl bumpCount []

/-- Mirror of the statistics payload of `get_statistics`. -/
structure ContentStats where
  total_content : Nat
  movies : Nat
  tv_shows : Nat
  by_rating : List (String × Nat)
  by_category : List (String × Nat)
deriving DecidableEq

/-- Model of `get_statistics` (`data_loader.py` lines 104-152, duplicated in
the router's `/stats/overview`). -/
def get_statistics (db : List NetflixContent) : ContentStats :=
  { total_content := db.length
    movies := (db.filter fun r => r.type == some "Movie").length
    tv_shows := (db.filter fun r => r.type == some "TV Show").length
    by_rating := sortPairsDesc (rating_counts db)
    by_category := (sortPairsDesc (category_counts db)).take 20 }

/-- Model of the categories facet (`get_unique_values` lines 175-184 and the
router's `get_all_categories`): all tokens of all `listed_in` fields,
deduplicated (Python `set`) and sorted. -/
def get_all_categories (db : List NetflixContent) : List String :=
  sortStrings ((db.map fun r => tokenizeField r.listed_in).flatten).dedup

/-- Model of the countries facet (`get_unique_values` lines 164-173 and the
router's `get_all_countries`): the query is `distinct()` on the column value
(modelled by the inner `dedup`), then tokens are collected into a set. -/
def get_all_countries (db : List NetflixContent) : List String :=
  sortStrings (((db.map fun r => r.country).dedup.map tokenizeField).flatten).dedup

/-- Model of the ratings facet: distinct non-empty rating values, sorted. -/
def get_all_ratings (db : List NetflixContent) : List String :=
  sortStrings ((db.map fun r => r.rating).dedup.filterMap nonEmptyOpt)

/-- Mirror of the payload of `get_unique_values` (`data_loader.py` 155-190). -/
structure UniqueValues where
  ratings : List String
  countries : List String
  categories : List String
deriving DecidableEq

/-- Model of `get_unique_values`. -/
def get_unique_values (db : List NetflixContent) : UniqueValues :=
  ⟨get_all_ratings db, get_all_countries db, get_all_categories db⟩

/-- Spec-side tokenization ("empty tokens are discarded"): the source's
tokens with empty strings filtered out.  Used to compare the code against
the spec's words. -/
def specFacetTokens (v : Option String) : List String :=
  (tokenizeField v).filter fun t => t ≠ ""

/-- Spec-side countries facet: trimmed tokens with empty tokens discarded,
deduplicated and sorted ("splitting on , and trimming whitespace yields the
token set; empty tokens are discarded"). -/
def spec_unique_countries (db : List NetflixContent) : List String :=
  sortStrings ((db.map fun r => specFacetTokens r.country).flatten).dedup

/-- Total number of tokens (empty tokens included) over every record's
category field, as produced by the source's tokenization. -/
def total_tokens (db : List NetflixContent) : Nat :=
  (db.map fun r => (tokenizeField r.listed_in).length).sum

/-- Spec-side count: total number of NON-empty tokens over every record's
category field. -/
def total_nonempty_tokens (db : List NetflixContent) : Nat :=
  (db.map fun r => ((tokenizeField r.listed_in).filter fun t => t ≠ "").length).sum

/-- Sum of the counts of a frequency list. -/
def sumCounts (m : List (String × Nat)) : Nat :=
  (m.map Prod.snd).sum

/-- `anySuffix f s` is true when `f` holds of some suffix of `s` (including
`s` itself and the empty suffix). -/
def anySuffix (f : List Char → Bool) : List Char → Bool
  | [] => f []
  | c :: t => f (c :: t) || anySuffix f t

/-- PostgreSQL `LIKE` pattern matching over character lists (the backend is
PostgreSQL, `app/core/config.py`): `%` matches any (possibly empty)
sequence, `_` matches exactly one character, the default escape character
`\` followed by any character matches that character literally, and any
other pattern character matches itself.  A pattern ending in a dangling
`\` raises `LIKE pattern must not end with escape character` in PostgreSQL;
here it matches nothing — the case is unreachable for the router's
patterns, which always end in `%` (see `likeValid_search_pattern`). -/
def likeMatch : List Char → List Char → Bool
  | [], s => s.isEmpty
  | c :: p, s =>
    if c = '\\' then
      match p, s with
      | [], _ => false
      | _ :: _, [] => false
      | e :: p2, d :: t => (e == d) && likeMatch p2 t
    else if c = '%' then anySuffix (likeMatch p) s
    else
      match s with
      | [] => false
      | d :: t => (if c = '_' then true else c == d) && likeMatch p t

/-- PostgreSQL's validity condition on a `LIKE` pattern: the escape
character `\` must not stand at the end of the pattern. -/
def likeValid : List Char → Bool
  | [] => true
  | c :: p =>
    if c = '\\' then
      match p with
      | [] => false
      | _ :: p2 => likeValid p2
    else likeValid p

/-- The characters of a string lowered with `str.lower` / SQL `lower`. -/
def lowerChars (s : String) : List Char :=
  s.data.map Char.toLower

/-- SQLAlchemy's `col.ilike(pattern)` on the PostgreSQL backend:
case-insensitive `LIKE` with `\` as the default escape character. -/
def sqlILike (v pat : String) : Bool :=
  likeMatch (lowerChars pat) (lowerChars v)

/-- `col.ilike(pattern)` on a nullable column: `NULL` never matches. -/
def ilikeOpt (v : Option String) (pat : String) : Bool :=
  match v with
  | none => false
  | some s => sqlILike s pat

/-- The pattern `f"%{q}%"` built by the router. -/
def search_pattern (q : String) : String :=
  "%" ++ q ++ "%"

/-- The `or_` filter of `search_content` (`app/routers/netflix.py` 101-110):
ILIKE on title, director, cast, description. -/
def matchesSearch (q : String) (r : NetflixContent) : Bool :=
  ilikeOpt r.title (search_pattern q) || ilikeOpt r.director (search_pattern q) ||
    ilikeOpt r.cast (search_pattern q) || ilikeOpt r.description (search_pattern q)

/-- Model of the `/content/search/query` handler body:
filter, then `offset(offset).limit(limit)`. -/
def search_content (q : String) (limit offset : Nat) (db : List NetflixContent) :
    List NetflixContent :=
  (((db.filter (matchesSearch q)).drop offset).take limit)

/-- Decidable spec-side predicate: `q` occurs case-insensitively as a plain
substring of `s` (some suffix of `s` has `q` as a prefix). -/
def isSubstr (needle hay : List Char) : Bool :=
  needle.isPrefixOf hay ||
    match hay with
    | [] => false
    | _ :: t => isSubstr needle t

/-- Spec-side field match: `q` appears case-insensitively as a substring of
the (non-null) field. -/
def containsCI (q : String) (v : Option String) : Bool :=
  match v with
  | none => false
  | some s => isSubstr (lowerChars q) (lowerChars s)

/-- Spec-side search predicate: substring of title OR director OR cast OR
description, case-insensitively. -/
def specSearchMatches (q : String) (r : NetflixContent) : Bool :=
  containsCI q r.title || containsCI q r.director ||
    containsCI q r.cast || containsCI q r.description

/-- A Python-truthiness string filter parameter: the router only applies a
string filter under `if param:`, so `None` and `""` mean "no filter". -/
def applyStrFilter (p : Option String) (f : String → Bool) : Bool :=
  match p with
  | none => true
  | some s => if s = "" then true else f s

/-- A Python-truthiness int filter parameter: under `if param:` the value
`0` is falsy, so `None` and `0` mean "no filter". -/
def applyIntFilter (p : Option Int) (f : Int → Bool) : Bool :=
  match p with
  | none => true
  | some v => if v = 0 then true else f v

/-- The conjunction of the optional filters of `get_content`
(`app/routers/netflix.py` 43-65): exact match on type, rating and
release_year, ILIKE substring on country, category, title, director, cast. -/
def contentFilter (type rating : Option String) (release_year : Option Int)
    (country category title director castQ : Option String)
    (r : NetflixContent) : Bool :=
  applyStrFilter type (fun s => r.type == some s) &&
    applyStrFilter rating (fun s => r.rating == some s) &&
    applyIntFilter release_year (fun v => r.release_year == some v) &&
    applyStrFilter country (fun s => ilikeOpt r.country (search_pattern s)) &&
    applyStrFilter category (fun s => ilikeOpt r.listed_in (search_pattern s)) &&
    applyStrFilter title (fun s => ilikeOpt r.title (search_pattern s)) &&
    applyStrFilter director (fun s => ilikeOpt r.director (search_pattern s)) &&
    applyStrFilter castQ (fun s => ilikeOpt r.cast (search_pattern s))

/-- Model of the `GET /content/` handler body: conditional filters, then
`offset(offset).limit(limit)`. -/
def get_content (type rating : Option String) (release_year : Option Int)
    (country category title director castQ : Option String)
    (limit offset : Nat) (db : List NetflixContent) : List NetflixContent :=
  (((db.filter
      (contentFilter type rating release_year country category title director castQ)).drop
    offset).take limit)

/-- Model of the `/content/search/query` endpoint including FastAPI request
validation: `q: str = Query(..., min_length=1)` rejects a missing parameter
and a value shorter than one character before the handler runs. -/
def search_query_endpoint (q : Option String) (limit offset : Nat)
    (db : List NetflixContent) : Except String (List NetflixContent) :=
  match q with
  | none => Except.error "field required"
  | some s =>
    if s.length < 1 then
      Except.error "ensure this value has at least 1 character"
    else
      Except.ok (search_content s limit offset db)

/-- One CSV row of `load_netflix_data_from_csv` after the dataframe
normalization: `df.fillna('')` makes every text cell a (possibly empty)
string, `show_id` is coerced to a string, and `release_year` holds the
result of `pd.to_numeric(..., errors='coerce')` — `none` when the cell was
missing or unparseable — before the `fillna(0).astype(int)` step, which is
modelled in `normYear`. -/
structure CsvRow where
  show_id : String
  type : String
  title : String
  director : String
  cast : String
  country : String
  date_added : String
  release_year : Option Int
  rating : String
  duration : String
  listed_in : String
  description : String
deriving DecidableEq

/-- Models `row[field] if row[field] else None`: an empty cell is stored as
SQL `NULL`. -/
def strOrNone (s : String) : Option String :=
  if s = "" then none else some s

/-- Models `release_year.fillna(0).astype(int)` followed by
`row['release_year'] if row['release_year'] > 0 else None`. -/
def normYear (y : Option Int) : Option Int :=
  let n := y.getD 0
  if 0 < n then some n else none

/-- Building the `NetflixContent` ORM object from a normalized row
(`data_loader.py` 63-76). -/
def buildContent (row : CsvRow) : NetflixContent :=
  { show_id := row.show_id
    type := strOrNone row.type
    title := strOrNone row.title
    director := strOrNone row.director
    cast := strOrNone row.cast
    country := strOrNone row.country
    date_added := strOrNone row.date_added
    release_year := normYear row.release_year
    rating := strOrNone row.rating
    duration := strOrNone row.duration
    listed_in := strOrNone row.listed_in
    description := strOrNone row.description }

/-- The importer's result counters. -/
structure ImportCounts where
  inserted : Nat
  updated : Nat
  skipped : Nat
deriving DecidableEq

/-- Outcome of a bulk import run: the committed store, the counters, and
whether the run completed (`ok = false` models the re-raised exception). -/
structure ImportResult where
  store : List NetflixContent
  counts : ImportCounts
  ok : Bool
deriving DecidableEq

/-- `db.query(NetflixContent).filter(show_id == sid).first()` is non-empty. -/
def hasShowId (l : List NetflixContent) (sid : String) : Bool :=
  l.any fun c => c.show_id = sid

/-- One iteration of the row loop (`data_loader.py` 55-80).  `fails row`
abstracts "processing this row raises" (any parse or store error); the
existence check sees committed rows and the session's pending adds
(SQLAlchemy autoflush).  `none` models the raised exception. -/
def processRow (fails : CsvRow → Bool) (committed pending : List NetflixContent)
    (cnt : ImportCounts) (row : CsvRow) :
    Option (List NetflixContent × ImportCounts) :=
  if fails row then none
  else if hasShowId committed row.show_id || hasShowId pending row.show_id then
    some (pending, { cnt with skipped := cnt.skipped + 1 })
  else
    some (pending ++ [buildContent row], { cnt with inserted := cnt.inserted + 1 })

/-- The inner loop over one batch, accumulating pending (uncommitted) adds. -/
def processBatch (fails : CsvRow → Bool) (committed : List NetflixContent)
    (rows : List CsvRow) (pending : List NetflixContent) (cnt : ImportCounts) :
    Option (List NetflixContent × ImportCounts) :=
  match rows with
  | [] => some (pending, cnt)
  | row :: rest =>
    match processRow fails committed pending cnt row with
    | none => none
    | some (pending2, cnt2) => processBatch fails committed rest pending2 cnt2

/-- The batch loop: each successful batch is committed (`db.commit()`);
a failing batch is rolled back (`db.rollback()`), its pending adds are
discarded, and the error is re-raised (`ok := false`), leaving previously
committed batches in the store. -/
def runBatches (fails : CsvRow → Bool) (batches : List (List CsvRow))
    (committed : List NetflixContent) (cnt : ImportCounts) : ImportResult :=
  match batches with
  | [] => ⟨committed, cnt, true⟩
  | b :: bs =>
    match processBatch fails committed b [] cnt with
    | none => ⟨committed, cnt, false⟩
    | some (pending, cnt2) => runBatches fails bs (committed ++ pending) cnt2

/-- Fuel-driven chunking: with fuel at least the list length this cuts the
list into consecutive chunks of 100 rows. -/
def chunkFuel : Nat → List CsvRow → List (List CsvRow)
  | _, [] => []
  | 0, _ :: _ => []
  | fuel + 1, r :: rest => ((r :: rest).take 100) :: chunkFuel fuel ((r :: rest).drop 100)

/-- `range(0, len(df), batch_size)` with `batch_size = 100`: the row list cut
into chunks of 100. -/
def chunkRows (rows : List CsvRow) : List (List CsvRow) :=
  chunkFuel rows.length rows

/-- Model of `load_netflix_data_from_csv` (`data_loader.py` 11-101):
batched insert-or-skip of every row into the store, starting from zeroed
counters. -/
def load_netflix_data_from_csv (fails : CsvRow → Bool) (rows : List CsvRow)
    (store : List NetflixContent) : ImportResult :=
  runBatches fails (chunkRows rows) store ⟨0, 0, 0⟩

/-- The error-free run: no row raises. -/
def noFailure : CsvRow → Bool := fun _ => false

/-- The stored-year invariant of the spec: a record's `release_year` is
either absent or positive. -/
def yearOK (r : NetflixContent) : Bool :=
  match r.release_year with
  | none => true
  | some y => 0 < y

/-- A record with every nullable field absent, used to build concrete
test records. -/
def emptyRec : NetflixContent :=
  ⟨"s0", none, none, none, none, none, none, none, none, none, none, none⟩

/-- Concrete record whose stored country value has a trailing comma, so the
source tokenization produces an empty token. -/
def trailingCommaRec : NetflixContent :=
  { emptyRec with show_id := "s1", country := some "A," }

/-- Concrete record with the spec's example category value `"A, b ,C"`. -/
def sampleCategoriesRec : NetflixContent :=
  { emptyRec with show_id := "s2", listed_in := some "A, b ,C" }

/-- Concrete record whose category field has a trailing comma. -/
def trailingCommaCatRec : NetflixContent :=
  { emptyRec with show_id := "s3", listed_in := some "A," }

/-- Concrete record whose title contains `aXb` (so the ILIKE pattern built
from the query `a%b` matches it although `a%b` is not a substring). -/
def wildcardTitleRec : NetflixContent :=
  { emptyRec with show_id := "s4", title := some "aXb" }

/-- Concrete record released in 2020. -/
def year2020Rec : NetflixContent :=
  { emptyRec with show_id := "s5", release_year := some 2020 }

/-- Concrete record whose description contains the word `Dark`. -/
def darkRec : NetflixContent :=
  { emptyRec with show_id := "s6", description := some "A Dark story" }

/-- A CSV row with blank text cells and no parsed year. -/
def blankRow : CsvRow :=
  ⟨"r0", "", "", "", "", "", "", none, "", "", "", ""⟩

/-- A CSV row whose release_year parsed to a negative number. -/
def negYearRow : CsvRow :=
  { blankRow with show_id := "r1", title := "T1", release_year := some (-5) }

/-- A CSV row whose release_year parsed to zero. -/
def zeroYearRow : CsvRow :=
  { blankRow with show_id := "r2", title := "T2", release_year := some 0 }

/-- A CSV row with a normal positive release_year. -/
def goodYearRow : CsvRow :=
  { blankRow with show_id := "r3", title := "T3", release_year := some 2020 }

/-- A CSV row used as the failing row in error-handling runs. -/
def poisonRow : CsvRow :=
  { blankRow with show_id := "poison" }

/-- A failure model in which exactly the rows with show_id `"poison"` raise. -/
def failsPoison : CsvRow → Bool := fun row => row.show_id = "poison"

theorem mem_sortStrings {s : String} {l : List String} : s ∈ sortStrings l ↔ s ∈ l :=
  List.mem_insertionSort _

theorem sorted_sortStrings (l : List String) : (sortStrings l).Pairwise strLe :=
  List.sorted_insertionSort _ l

theorem sumCounts_append (a b : List (String × Nat)) :
    sumCounts (a ++ b) = sumCounts a + sumCounts b := by
  simp [sumCounts]

theorem map_ite_bump_of_not_mem (t : String) (rest : List (String × Nat))
    (h : ∀ q ∈ rest, q.1 ≠ t) :
    rest.map (fun p => if p.1 = t then (p.1, p.2 + 1) else p) = rest := by
  induction rest with
  | nil => rfl
  | cons q qs ih =>
    have hq : q.1 ≠ t := h q (by simp)
    simp only [List.map_cons, if_neg hq, List.cons.injEq, true_and]
    exact ih fun x hx => h x (by simp [hx])

theorem bumpCount_sum (m : List (String × Nat)) (t : String)
    (h : (m.map Prod.fst).Nodup) : sumCounts (bumpCount m t) = sumCounts m + 1 := by
  by_cases hany : (m.any fun p => p.1 = t) = true
  · simp only [bumpCount, if_pos hany]
    induction m with
    | nil => simp at hany
    | cons p rest ih =>
      simp only [List.map_cons, List.nodup_cons] at h
      obtain ⟨hp, hrest⟩ := h
      by_cases hpt : p.1 = t
      · have hres : ∀ q ∈ rest, q.1 ≠ t := by
          intro q hq hqt
          exact hp (by rw [hpt, ← hqt]; exact List.mem_map_of_mem _ hq)
        simp only [List.map_cons, if_pos hpt, map_ite_bump_of_not_mem t rest hres]
        simp [sumCounts]
        omega
      · have hanyr : (rest.any fun p => p.1 = t) = true := by
          simp only [List.any_cons] at hany
          rcases Bool.or_eq_true_iff.mp hany with h' | h'
          · exact absurd (of_decide_eq_true h') hpt
          · exact h'
        simp only [List.map_cons, if_neg hpt]
        have := ih hrest hanyr
        simp only [sumCounts, List.map_cons, List.sum_cons] at this ⊢
        omega
  · simp only [bumpCount, if_neg hany, sumCounts_append]
    simp [sumCounts]

theorem bumpCount_keys_nodup (m : List (String × Nat)) (t : String)
    (h : (m.map Prod.fst).Nodup) : ((bumpCount m t).map Prod.fst).Nodup := by
  by_cases hany : (m.any fun p => p.1 = t) = true
  · simp only [bumpCount, if_pos hany]
    have hkeys : (m.map fun p => if p.1 = t then (p.1, p.2 + 1) else p).map Prod.fst
        = m.map Prod.fst := by
      rw [List.map_map]
      apply List.map_congr_left
      intro p _
      by_cases hpt : p.1 = t <;> simp [hpt]
    rw [hkeys]; exact h
  · simp only [bumpCount, if_neg hany, List.map_append]
    simp only [List.any_eq_true, decide_eq_true_eq, not_exists, not_and] at hany
    simp only [List.nodup_append, List.map_cons, List.map_nil]
    refine ⟨h, List.nodup_singleton t, ?_⟩
    intro a ha hb
    simp only [List.mem_singleton] at hb
    obtain ⟨p, hp, rfl⟩ := List.mem_map.mp ha
    exact hany p hp hb

theorem foldl_bumpCount_sum (ts : List String) :
    ∀ m : List (String × Nat), (m.map Prod.fst).Nodup →
      sumCounts (ts.foldl bumpCount m) = sumCounts m + ts.length ∧
        ((ts.foldl bumpCount m).map Prod.fst).Nodup := by
  induction ts with
  | nil => intro m h; simpa using h
  | cons t ts ih =>
    intro m h
    simp only [List.foldl_cons, List.length_cons]
    obtain ⟨h1, h2⟩ := ih (bumpCount m t) (bumpCount_keys_nodup m t h)
    refine ⟨?_, h2⟩
    rw [h1, bumpCount_sum m t h]
    omega

theorem category_counts_fold (db : List NetflixContent) :
    ∀ m : List (String × Nat), (m.map Prod.fst).Nodup →
      sumCounts (db.foldl (fun m r => (tokenizeField r.listed_in).foldl bumpCount m) m)
          = sumCounts m + total_tokens db ∧
        ((db.foldl (fun m r => (tokenizeField r.listed_in).foldl bumpCount m) m).map
            Prod.fst).Nodup := by
  induction db with
  | nil => intro m h; simpa [total_tokens] using h
  | cons r rest ih =>
    intro m h
    simp only [List.foldl_cons]
    obtain ⟨h1, h2⟩ := foldl_bumpCount_sum (tokenizeField r.listed_in) m h
    obtain ⟨h3, h4⟩ := ih _ h2
    refine ⟨?_, h4⟩
    rw [h3, h1]
    simp [total_tokens]
    omega

/-- C1 counterexample: the stored country value `"A,"` produces the facet
list `["", "A"]` — the empty token is NOT discarded, so the derived values
differ from the spec-side set (tokens with empty tokens discarded), and the
empty string itself appears among the returned filter values. -/
theorem c1_counterexample :
    get_all_countries [trailingCommaRec] ≠ spec_unique_countries [trailingCommaRec] ∧
      "" ∈ get_all_countries [trailingCommaRec] := by
  decide

/-- C1 (amended): for every stored comma-joined multi-valued field (country,
categories), the derived unique filter values are exactly the set of trimmed
tokens obtained by splitting the field on `","`, with empty tokens RETAINED
(a dangling comma contributes the empty-string token); for a stored value
`"A, b ,C"` the facet set is exactly `{"A","b","C"}`, and the returned list
is sorted lexicographically. -/
theorem c1_facet_values (db : List NetflixContent) :
    (∀ s, s ∈ get_all_categories db ↔ ∃ r ∈ db, s ∈ tokenizeField r.listed_in) ∧
      (∀ s, s ∈ get_all_countries db ↔ ∃ r ∈ db, s ∈ tokenizeField r.country) ∧
      (get_all_categories db).Pairwise strLe ∧
      (get_all_countries db).Pairwise strLe ∧
      get_all_categories [sampleCategoriesRec] = ["A", "C", "b"] := by
  refine ⟨?_, ?_, sorted_sortStrings _, sorted_sortStrings _, by decide⟩
  · intro s
    rw [get_all_categories, mem_sortStrings, List.mem_dedup, List.mem_flatten]
    constructor
    · rintro ⟨l, hl, hs⟩
      obtain ⟨r, hr, rfl⟩ := List.mem_map.mp hl
      exact ⟨r, hr, hs⟩
    · rintro ⟨r, hr, hs⟩
      exact ⟨tokenizeField r.listed_in, List.mem_map_of_mem _ hr, hs⟩
  · intro s
    rw [get_all_countries, mem_sortStrings, List.mem_dedup, List.mem_flatten]
    constructor
    · rintro ⟨l, hl, hs⟩
      obtain ⟨v, hv, rfl⟩ := List.mem_map.mp hl
      obtain ⟨r, hr, rfl⟩ := List.mem_map.mp (List.mem_dedup.mp hv)
      exact ⟨r, hr, hs⟩
    · rintro ⟨r, hr, hs⟩
      exact ⟨tokenizeField r.country,
        List.mem_map_of_mem _ (List.mem_dedup.mpr (List.mem_map_of_mem _ hr)), hs⟩

/-- C2 counterexample: for the single record whose category field is `"A,"`
the returned `by_category` counts sum to 2 (the empty token is counted),
while the total number of non-empty tokens in the store is 1 — so the
by_category counts do not sum to the number of non-empty tokens. -/
theorem c2_counterexample :
    sumCounts (get_statistics [trailingCommaCatRec]).by_category ≠
      total_nonempty_tokens [trailingCommaCatRec] := by
  decide

/-- C2 (amended): the accumulated per-category counts (the frequency dict
built before sorting and top-20 truncation) sum to the total number of
tokens — empty tokens included — across every record's category field; the
returned `by_category` list never has more than 20 entries and is sorted by
count descending. -/
theorem c2_by_category (db : List NetflixContent) :
    sumCounts (category_counts db) = total_tokens db ∧
      (get_statistics db).by_category.length ≤ 20 ∧
      (get_statistics db).by_category.Pairwise countGE := by
  refine ⟨?_, ?_, ?_⟩
  · have := (category_counts_fold db [] (by simp)).1
    simpa [category_counts, sumCounts] using this
  · simp only [get_statistics]
    exact List.length_take_le 20 (sortPairsDesc (category_counts db))
  · have hs : (sortPairsDesc (category_counts db)).Pairwise countGE :=
      List.sorted_insertionSort countGE (category_counts db)
    exact List.Pairwise.sublist (List.take_sublist _ _) hs

theorem anySuffix_congr {f g : List Char → Bool} (h : ∀ t, f t = g t) :
    ∀ s, anySuffix f s = anySuffix g s := by
  intro s
  induction s with
  | nil => exact h []
  | cons c t ih => simp only [anySuffix, h, ih]

theorem isSubstr_eq_anySuffix (n : List Char) :
    ∀ h, isSubstr n h = anySuffix n.isPrefixOf h := by
  intro h
  induction h with
  | nil => simp [isSubstr, anySuffix]
  | cons c t ih => simp only [isSubstr, anySuffix, ih]

theorem likeMatch_pct_all (s : List Char) : likeMatch ['%'] s = true := by
  have key : ∀ t : List Char, anySuffix (likeMatch []) t = true := by
    intro t
    induction t with
    | nil => rfl
    | cons c t ih => simp [anySuffix, ih]
  show likeMatch ['%'] s = true
  rw [likeMatch.eq_def]
  simpa using key s

theorem likeMatch_lit_pct (p : List Char)
    (hp : ∀ c ∈ p, c ≠ '%' ∧ c ≠ '_' ∧ c ≠ '\\') :
    ∀ s, likeMatch (p ++ ['%']) s = p.isPrefixOf s := by
  induction p with
  | nil =>
    intro s
    simpa [List.isPrefixOf] using likeMatch_pct_all s
  | cons c p ih =>
    intro s
    obtain ⟨hc1, hc2, hc3⟩ := hp c (by simp)
    have hrest : ∀ x ∈ p, x ≠ '%' ∧ x ≠ '_' ∧ x ≠ '\\' :=
      fun x hx => hp x (by simp [hx])
    cases s with
    | nil =>
      rw [List.cons_append, likeMatch.eq_def]
      simp [hc1, hc3, List.isPrefixOf]
    | cons d t =>
      have hstep : likeMatch ((c :: p) ++ ['%']) (d :: t) =
          (c == d && likeMatch (p ++ ['%']) t) := by
        rw [List.cons_append, likeMatch.eq_def]
        simp [hc1, hc2, hc3]
      rw [hstep, ih hrest t]
      simp [List.isPrefixOf]

theorem like_pattern_eq_substr (q s : List Char)
    (hq : ∀ c ∈ q, c ≠ '%' ∧ c ≠ '_' ∧ c ≠ '\\') :
    likeMatch ('%' :: (q ++ ['%'])) s = isSubstr q s := by
  have h1 : likeMatch ('%' :: (q ++ ['%'])) s = anySuffix (likeMatch (q ++ ['%'])) s := by
    cases s <;> (rw [likeMatch.eq_def]; simp)
  rw [h1, anySuffix_congr (likeMatch_lit_pct q hq) s, ← isSubstr_eq_anySuffix]

theorem likeValid_append_pct_aux :
    ∀ (n : Nat) (l : List Char), l.length ≤ n → likeValid (l ++ ['%']) = true := by
  intro n
  induction n with
  | zero =>
    intro l h
    have : l = [] := List.eq_nil_of_length_eq_zero (Nat.le_zero.mp h)
    subst this
    rfl
  | succ n ih =>
    intro l h
    cases l with
    | nil => rfl
    | cons c l2 =>
      by_cases hc : c = '\\'
      · subst hc
        cases l2 with
        | nil => rfl
        | cons e l3 =>
          rw [likeValid.eq_def]
          simp only [List.cons_append]
          simp only [List.length_cons] at h
          exact ih l3 (by omega)
      · rw [likeValid.eq_def]
        simp only [List.cons_append, if_neg hc]
        simp only [List.length_cons] at h
        exact ih l2 (by omega)

theorem toLower_shift (c : Char) (h : 65 ≤ c.toNat ∧ c.toNat ≤ 90) :
    (Char.toLower c).toNat = c.toNat + 32 := by
  have base : ∀ n, n < 91 → 65 ≤ n → (Char.ofNat (n + 32)).toNat = n + 32 := by decide
  have hdef : Char.toLower c =
      if 65 ≤ c.toNat ∧ c.toNat ≤ 90 then Char.ofNat (c.toNat + 32) else c := rfl
  rw [hdef, if_pos h]
  exact base c.toNat (by omega) h.1

theorem toLower_eq_self (c : Char) (h : ¬(65 ≤ c.toNat ∧ c.toNat ≤ 90)) :
    Char.toLower c = c := by
  have hdef : Char.toLower c =
      if 65 ≤ c.toNat ∧ c.toNat ≤ 90 then Char.ofNat (c.toNat + 32) else c := rfl
  rw [hdef, if_neg h]

theorem toLower_wild_free (c : Char) (h1 : c ≠ '%') (h2 : c ≠ '_') (h3 : c ≠ '\\') :
    Char.toLower c ≠ '%' ∧ Char.toLower c ≠ '_' ∧ Char.toLower c ≠ '\\' := by
  by_cases hc : 65 ≤ c.toNat ∧ c.toNat ≤ 90
  · have hl := toLower_shift c hc
    refine ⟨?_, ?_, ?_⟩
    · intro he
      rw [he] at hl
      have h37 : Char.toNat '%' = 37 := rfl
      omega
    · intro he
      rw [he] at hl
      have h95 : Char.toNat '_' = 95 := rfl
      omega
    · intro he
      rw [he] at hl
      have h92 : Char.toNat '\\' = 92 := rfl
      omega
  · rw [toLower_eq_self c hc]
    exact ⟨h1, h2, h3⟩

theorem lowerChars_pattern (q : String) :
    lowerChars (search_pattern q) = '%' :: (lowerChars q ++ ['%']) := by
  have hpct : Char.toLower '%' = '%' := by decide
  simp [lowerChars, search_pattern, String.data_append, hpct]

/-- Every ILIKE pattern the router builds — `f"%{q}%"`, for any `q` — ends
in `%`, never in a dangling escape character, so PostgreSQL's
`LIKE pattern must not end with escape character` error is unreachable
from the search and filter endpoints. -/
theorem likeValid_search_pattern (q : String) :
    likeValid (lowerChars (search_pattern q)) = true := by
  rw [lowerChars_pattern]
  show likeValid ('%' :: (lowerChars q ++ ['%'])) = true
  have hne : ('%' : Char) ≠ '\\' := by decide
  rw [likeValid.eq_def]
  simp only [if_neg hne]
  exact likeValid_append_pct_aux (lowerChars q).length (lowerChars q) (Nat.le_refl _)

theorem ilikeOpt_eq_containsCI (q : String)
    (hq : ∀ c ∈ q.data, c ≠ '%' ∧ c ≠ '_' ∧ c ≠ '\\')
    (v : Option String) : ilikeOpt v (search_pattern q) = containsCI q v := by
  cases v with
  | none => rfl
  | some s =>
    show sqlILike s (search_pattern q) = isSubstr (lowerChars q) (lowerChars s)
    unfold sqlILike
    rw [lowerChars_pattern]
    apply like_pattern_eq_substr
    intro c hc
    obtain ⟨c0, hc0, rfl⟩ := List.mem_map.mp hc
    exact toLower_wild_free c0 (hq c0 hc0).1 (hq c0 hc0).2.1 (hq c0 hc0).2.2

theorem matchesSearch_eq_spec (q : String)
    (hq : ∀ c ∈ q.data, c ≠ '%' ∧ c ≠ '_' ∧ c ≠ '\\')
    (r : NetflixContent) : matchesSearch q r = specSearchMatches q r := by
  unfold matchesSearch specSearchMatches
  rw [ilikeOpt_eq_containsCI q hq, ilikeOpt_eq_containsCI q hq,
    ilikeOpt_eq_containsCI q hq, ilikeOpt_eq_containsCI q hq]

/-- C3 counterexample: for the query `"a%b"` the router builds the ILIKE
pattern `"%a%b%"`, whose `%` acts as a wildcard, so the record titled
`"aXb"` is returned although `"a%b"` does not appear as a substring of any
of its four searched fields. -/
theorem c3_counterexample :
    wildcardTitleRec ∈ search_content "a%b" 20 0 [wildcardTitleRec] ∧
      specSearchMatches "a%b" wildcardTitleRec = false := by
  decide

/-- C3 (amended): for every query string q containing neither a SQL LIKE
wildcard (`%` or `_`) nor the PostgreSQL escape character `\`, free-text
search returns exactly the records in which q appears case-insensitively as
a substring of title, director, cast, or description (logical OR across the
four fields, a NULL field never matching), subject to the pagination
contract; a query containing `%`, `_` or `\` is instead interpreted as a
PostgreSQL LIKE pattern (wildcards and backslash escapes active). -/
theorem c3_search_substring (q : String) (limit offset : Nat)
    (db : List NetflixContent)
    (hq : ∀ c ∈ q.data, c ≠ '%' ∧ c ≠ '_' ∧ c ≠ '\\') :
    search_content q limit offset db =
      ((db.filter (specSearchMatches q)).drop offset).take limit := by
  unfold search_content
  rw [List.filter_congr fun r _ => matchesSearch_eq_spec q hq r]

/-- Witness for `c3_search_substring` at the spec's example query `"dark"`
on a concrete two-record store. -/
theorem c3_search_substring_witness :
    search_content "dark" 20 0 [darkRec, wildcardTitleRec] =
      ((([darkRec, wildcardTitleRec].filter
        (specSearchMatches "dark")).drop 0).take 20) :=
  c3_search_substring "dark" 20 0 [darkRec, wildcardTitleRec] (by decide)

/-- C5 counterexample: the handler guards each filter with Python
truthiness (`if release_year:`), and `0` is falsy, so a supplied
release_year of `0` applies no filter at all: a record from 2020 is
returned even though its release_year differs from the supplied value. -/
theorem c5_counterexample :
    year2020Rec ∈
        get_content none none (some 0) none none none none none 20 0 [year2020Rec] ∧
      year2020Rec.release_year ≠ some 0 := by
  decide

/-- C5 (amended): for every supplied NONZERO release_year filter value the
content-listing endpoint applies an exact-match filter — the returned
window is exactly the pagination window of the records whose stored
release_year equals the supplied value; a supplied value of 0 is treated as
an absent filter (Python truthiness). -/
theorem c5_release_year_filter (v : Int) (hv : v ≠ 0) (limit offset : Nat)
    (db : List NetflixContent) :
    get_content none none (some v) none none none none none limit offset db =
      ((db.filter fun r => r.release_year == some v).drop offset).take limit := by
  unfold get_content
  rw [List.filter_congr fun r _ => ?_]
  simp [contentFilter, applyStrFilter, applyIntFilter, hv]

/-- Witness for `c5_release_year_filter` at the value 2020 on a concrete
two-record store. -/
theorem c5_release_year_filter_witness :
    get_content none none (some 2020) none none none none none 20 0
        [year2020Rec, darkRec] =
      (([year2020Rec, darkRec].filter fun r =>
        r.release_year == some 2020).drop 0).take 20 :=
  c5_release_year_filter 2020 (by decide) 20 0 [year2020Rec, darkRec]

/-- C7 (confirmed): for every filtered or searched read with limit L in
[1,100] and offset O, the number of records returned equals
min(L, total_matching − O) (truncated subtraction, i.e.
min(L, max(0, total_matching − O))), where total_matching is the number of
records satisfying the filters. -/
theorem c7_pagination (type rating : Option String) (release_year : Option Int)
    (country category title director castQ : Option String) (q : String)
    (limit offset : Nat) (db : List NetflixContent)
    (_h1 : 1 ≤ limit) (_h2 : limit ≤ 100) :
    (get_content type rating release_year country category title director castQ
        limit offset db).length =
      min limit
        ((db.filter (contentFilter type rating release_year country category
          title director castQ)).length - offset) ∧
      (search_content q limit offset db).length =
        min limit ((db.filter (matchesSearch q)).length - offset) := by
  constructor <;>
    simp [get_content, search_content, List.length_take, List.length_drop]

/-- Witness for `c7_pagination` with the default limit 20 and offset 0 on a
concrete one-record store. -/
theorem c7_pagination_witness :
    (get_content none none none none none none none none 20 0 [darkRec]).length =
      min 20
        (([darkRec].filter
          (contentFilter none none none none none none none none)).length - 0) ∧
      (search_content "dark" 20 0 [darkRec]).length =
        min 20 (([darkRec].filter (matchesSearch "dark")).length - 0) :=
  c7_pagination none none none none none none none none "dark" 20 0 [darkRec]
    (by decide) (by decide)

/-- C10 (confirmed): the search endpoint's query parameter `q` is declared
`Query(..., min_length=1)`, so a request with a missing or empty `q` is
rejected with a validation error before the store is read, and whenever the
endpoint returns records the query was present with at least one
character. -/
theorem c10_q_required (q : Option String) (limit offset : Nat)
    (db : List NetflixContent) :
    search_query_endpoint none limit offset db = Except.error "field required" ∧
      search_query_endpoint (some "") limit offset db =
        Except.error "ensure this value has at least 1 character" ∧
      ∀ res, search_query_endpoint q limit offset db = Except.ok res →
        ∃ s, q = some s ∧ 1 ≤ s.length ∧ res = search_content s limit offset db := by
  refine ⟨rfl, rfl, ?_⟩
  intro res h
  cases q with
  | none => simp [search_query_endpoint] at h
  | some s =>
    by_cases hs : s.length < 1
    · simp [search_query_endpoint, hs] at h
    · refine ⟨s, rfl, by omega, ?_⟩
      simp [search_query_endpoint, hs] at h
      exact h.symm

/-- Witness for `c10_q_required`: the accepted query `"dark"` on the empty
store returns the handler result and has length at least 1. -/
theorem c10_q_required_witness :
    ∃ s, (some "dark" : Option String) = some s ∧ 1 ≤ s.length ∧
      ([] : List NetflixContent) = search_content s 20 0 [] :=
  (c10_q_required (some "dark") 20 0 []).2.2 [] rfl

theorem chunkFuel_congr :
    ∀ (f g : Nat) (rows : List CsvRow), rows.length ≤ f → rows.length ≤ g →
      chunkFuel f rows = chunkFuel g rows := by
  intro f
  induction f with
  | zero =>
    intro g rows h1 _
    have : rows = [] := List.eq_nil_of_length_eq_zero (Nat.le_zero.mp h1)
    subst this
    cases g <;> rfl
  | succ f ih =>
    intro g rows h1 h2
    cases rows with
    | nil => cases g <;> rfl
    | cons r rest =>
      cases g with
      | zero => simp at h2
      | succ g =>
        show ((r :: rest).take 100) :: chunkFuel f ((r :: rest).drop 100) =
          ((r :: rest).take 100) :: chunkFuel g ((r :: rest).drop 100)
        have hlen : ((r :: rest).drop 100).length = rest.length + 1 - 100 := by
          simp [List.length_drop]
        simp only [List.length_cons] at h1 h2
        rw [ih g ((r :: rest).drop 100) (by omega) (by omega)]

theorem chunkRows_cons (r : CsvRow) (rest : List CsvRow) :
    chunkRows (r :: rest) =
      ((r :: rest).take 100) :: chunkRows ((r :: rest).drop 100) := by
  show chunkFuel ((r :: rest).length) (r :: rest) = _
  simp only [List.length_cons]
  show ((r :: rest).take 100) :: chunkFuel rest.length ((r :: rest).drop 100) = _
  have hlen : ((r :: rest).drop 100).length = rest.length + 1 - 100 := by
    simp [List.length_drop]
  rw [chunkFuel_congr rest.length ((r :: rest).drop 100).length ((r :: rest).drop 100)
    (by omega) (by omega)]
  rfl

theorem chunkRows_flatten_aux :
    ∀ (n : Nat) (rows : List CsvRow), rows.length ≤ n →
      (chunkRows rows).flatten = rows := by
  intro n
  induction n with
  | zero =>
    intro rows h
    have : rows = [] := List.eq_nil_of_length_eq_zero (Nat.le_zero.mp h)
    subst this
    rfl
  | succ n ih =>
    intro rows h
    cases rows with
    | nil => rfl
    | cons r rest =>
      rw [chunkRows_cons, List.flatten_cons]
      have hlen : ((r :: rest).drop 100).length = rest.length + 1 - 100 := by
        simp [List.length_drop]
      simp only [List.length_cons] at h
      rw [ih ((r :: rest).drop 100) (by omega)]
      exact List.take_append_drop 100 (r :: rest)

theorem chunkRows_flatten (rows : List CsvRow) : (chunkRows rows).flatten = rows :=
  chunkRows_flatten_aux rows.length rows (Nat.le_refl _)

theorem chunkRows_length_sum (rows : List CsvRow) :
    ((chunkRows rows).map List.length).sum = rows.length := by
  rw [← List.length_flatten, chunkRows_flatten]

theorem hasShowId_append (a b : List NetflixContent) (sid : String) :
    hasShowId (a ++ b) sid = (hasShowId a sid || hasShowId b sid) :=
  List.any_append

theorem processBatch_noFailure (rows : List CsvRow) :
    ∀ (c p : List NetflixContent) (cnt : ImportCounts),
      ∃ p2 cnt2, processBatch noFailure c rows p cnt = some (p2, cnt2) ∧
        ∃ t, p2 = p ++ t := by
  induction rows with
  | nil => intro c p cnt; exact ⟨p, cnt, rfl, [], by simp⟩
  | cons row rest ih =>
    intro c p cnt
    by_cases hex : (hasShowId c row.show_id || hasShowId p row.show_id) = true
    · have hr : processRow noFailure c p cnt row =
          some (p, { cnt with skipped := cnt.skipped + 1 }) := by
        simp [processRow, noFailure, hex]
      obtain ⟨p2, cnt2, heq, t, ht⟩ := ih c p { cnt with skipped := cnt.skipped + 1 }
      exact ⟨p2, cnt2, by simp only [processBatch, hr, heq], t, ht⟩
    · have hr : processRow noFailure c p cnt row =
          some (p ++ [buildContent row], { cnt with inserted := cnt.inserted + 1 }) := by
        simp only [processRow, noFailure, Bool.false_eq_true, if_false]
        rw [if_neg hex]
      obtain ⟨p2, cnt2, heq, t, ht⟩ :=
        ih c (p ++ [buildContent row]) { cnt with inserted := cnt.inserted + 1 }
      refine ⟨p2, cnt2, by simp only [processBatch, hr, heq], [buildContent row] ++ t, ?_⟩
      rw [ht, List.append_assoc]

theorem processBatch_mem (rows : List CsvRow) :
    ∀ (c p : List NetflixContent) (cnt : ImportCounts) p2 cnt2,
      processBatch noFailure c rows p cnt = some (p2, cnt2) →
      ∀ row ∈ rows, hasShowId (c ++ p2) row.show_id = true := by
  induction rows with
  | nil => intro c p cnt p2 cnt2 _ row hrow; simp at hrow
  | cons row0 rest ih =>
    intro c p cnt p2 cnt2 h row hrow
    by_cases hex : (hasShowId c row0.show_id || hasShowId p row0.show_id) = true
    · have hr : processRow noFailure c p cnt row0 =
          some (p, { cnt with skipped := cnt.skipped + 1 }) := by
        simp [processRow, noFailure, hex]
      simp only [processBatch, hr] at h
      rcases List.mem_cons.mp hrow with rfl | hmem
      · obtain ⟨p2', cnt2', heq, t, ht⟩ :=
          processBatch_noFailure rest c p { cnt with skipped := cnt.skipped + 1 }
        rw [heq] at h
        obtain ⟨rfl, rfl⟩ : p2' = p2 ∧ cnt2' = cnt2 := by
          constructor <;> injection h with h1 <;> simp_all
        rw [hasShowId_append]
        rcases Bool.or_eq_true_iff.mp hex with hc | hp
        · simp [hc]
        · rw [ht, hasShowId_append, hp]
          simp
      · exact ih c p { cnt with skipped := cnt.skipped + 1 } p2 cnt2 h row hmem
    · have hr : processRow noFailure c p cnt row0 =
          some (p ++ [buildContent row0], { cnt with inserted := cnt.inserted + 1 }) := by
        simp only [processRow, noFailure, Bool.false_eq_true, if_false]
        rw [if_neg hex]
      simp only [processBatch, hr] at h
      rcases List.mem_cons.mp hrow with rfl | hmem
      · obtain ⟨p2', cnt2', heq, t, ht⟩ := processBatch_noFailure rest c
          (p ++ [buildContent row]) { cnt with inserted := cnt.inserted + 1 }
        rw [heq] at h
        obtain ⟨rfl, rfl⟩ : p2' = p2 ∧ cnt2' = cnt2 := by
          constructor <;> injection h with h1 <;> simp_all
        rw [ht, hasShowId_append, hasShowId_append, hasShowId_append]
        have : hasShowId [buildContent row] row.show_id = true := by
          simp [hasShowId, buildContent]
        simp [this]
      · exact ih c (p ++ [buildContent row0])
          { cnt with inserted := cnt.inserted + 1 } p2 cnt2 h row hmem

theorem runBatches_noFailure_ok (bs : List (List CsvRow)) :
    ∀ (c : List NetflixContent) (cnt : ImportCounts),
      (runBatches noFailure bs c cnt).ok = true ∧
        ∃ t, (runBatches noFailure bs c cnt).store = c ++ t := by
  induction bs with
  | nil => intro c cnt; exact ⟨rfl, [], by simp [runBatches]⟩
  | cons b rest ih =>
    intro c cnt
    obtain ⟨p, cnt2, heq, t, ht⟩ := processBatch_noFailure b c [] cnt
    obtain ⟨hok, t2, ht2⟩ := ih (c ++ p) cnt2
    refine ⟨by simp only [runBatches, heq]; exact hok, p ++ t2, ?_⟩
    simp only [runBatches, heq]
    rw [ht2, List.append_assoc]

theorem runBatches_mem (bs : List (List CsvRow)) :
    ∀ (c : List NetflixContent) (cnt : ImportCounts) (b : List CsvRow)
      (row : CsvRow), b ∈ bs → row ∈ b →
      hasShowId (runBatches noFailure bs c cnt).store row.show_id = true := by
  induction bs with
  | nil => intro c cnt b row hb _; simp at hb
  | cons b0 rest ih =>
    intro c cnt b row hb hrow
    obtain ⟨p, cnt2, heq, t, ht⟩ := processBatch_noFailure b0 c [] cnt
    simp only [runBatches, heq]
    rcases List.mem_cons.mp hb with rfl | hbs
    · have hpres := processBatch_mem b c [] cnt p cnt2 heq row hrow
      obtain ⟨_, t2, ht2⟩ := runBatches_noFailure_ok rest (c ++ p) cnt2
      rw [ht2, hasShowId_append, hpres]
      rfl
    · exact ih (c ++ p) cnt2 b row hbs hrow

theorem processBatch_all_skip (rows : List CsvRow) :
    ∀ (c p : List NetflixContent) (cnt : ImportCounts),
      (∀ row ∈ rows, hasShowId c row.show_id = true) →
      processBatch noFailure c rows p cnt =
        some (p, { cnt with skipped := cnt.skipped + rows.length }) := by
  induction rows with
  | nil => intro c p cnt _; simp [processBatch]
  | cons row rest ih =>
    intro c p cnt hall
    have hex : (hasShowId c row.show_id || hasShowId p row.show_id) = true := by
      rw [hall row (by simp)]
      rfl
    have hr : processRow noFailure c p cnt row =
        some (p, { cnt with skipped := cnt.skipped + 1 }) := by
      simp [processRow, noFailure, hex]
    simp only [processBatch, hr]
    rw [ih c p { cnt with skipped := cnt.skipped + 1 }
      (fun x hx => hall x (by simp [hx]))]
    obtain ⟨ci, cu, ck⟩ := cnt
    simp only [List.length_cons]
    have harith : ck + 1 + rest.length = ck + (rest.length + 1) := by omega
    simp only [harith]

theorem runBatches_all_skip (bs : List (List CsvRow)) :
    ∀ (c : List NetflixContent) (cnt : ImportCounts),
      (∀ b ∈ bs, ∀ row ∈ b, hasShowId c row.show_id = true) →
      runBatches noFailure bs c cnt =
        ⟨c, { cnt with skipped := cnt.skipped + (bs.map List.length).sum }, true⟩ := by
  induction bs with
  | nil => intro c cnt _; simp [runBatches]
  | cons b rest ih =>
    intro c cnt hall
    have hb := processBatch_all_skip b c [] cnt (hall b (by simp))
    simp only [runBatches, hb]
    have hrest : ∀ b2 ∈ rest, ∀ row ∈ b2, hasShowId (c ++ []) row.show_id = true := by
      intro b2 hb2 row hrow
      rw [List.append_nil]
      exact hall b2 (by simp [hb2]) row hrow
    rw [ih (c ++ []) { cnt with skipped := cnt.skipped + b.length } hrest]
    obtain ⟨ci, cu, ck⟩ := cnt
    simp only [List.append_nil, List.map_cons, List.sum_cons]
    congr 2
    omega

/-- C4 (confirmed): bulk import is idempotent — running the importer twice
on the same row list leaves the store with the same record count as one
run; on the second run every row is counted as skipped and none as
inserted, because a row whose show_id already exists is skipped and never
updated. -/
theorem c4_idempotent_import (rows : List CsvRow) (store : List NetflixContent) :
    (load_netflix_data_from_csv noFailure rows
        (load_netflix_data_from_csv noFailure rows store).store).store.length =
      (load_netflix_data_from_csv noFailure rows store).store.length ∧
      (load_netflix_data_from_csv noFailure rows
        (load_netflix_data_from_csv noFailure rows store).store).counts.skipped =
        rows.length ∧
      (load_netflix_data_from_csv noFailure rows
        (load_netflix_data_from_csv noFailure rows store).store).counts.inserted = 0 := by
  have hpres : ∀ b ∈ chunkRows rows, ∀ row ∈ b,
      hasShowId (load_netflix_data_from_csv noFailure rows store).store
        row.show_id = true := by
    intro b hb row hrow
    exact runBatches_mem (chunkRows rows) store ⟨0, 0, 0⟩ b row hb hrow
  have h2 : load_netflix_data_from_csv noFailure rows
      (load_netflix_data_from_csv noFailure rows store).store =
        ⟨(load_netflix_data_from_csv noFailure rows store).store,
          ⟨0, 0, 0 + ((chunkRows rows).map List.length).sum⟩, true⟩ := by
    exact runBatches_all_skip (chunkRows rows)
      (load_netflix_data_from_csv noFailure rows store).store ⟨0, 0, 0⟩ hpres
  rw [h2, chunkRows_length_sum]
  exact ⟨rfl, by simp, rfl⟩

theorem buildContent_yearOK (row : CsvRow) : yearOK (buildContent row) = true := by
  by_cases h : 0 < row.release_year.getD 0 <;>
    simp [yearOK, buildContent, normYear, h]

theorem processBatch_year (fails : CsvRow → Bool) (rows : List CsvRow) :
    ∀ (c p : List NetflixContent) (cnt : ImportCounts) p2 cnt2,
      (∀ r ∈ p, yearOK r = true) →
      processBatch fails c rows p cnt = some (p2, cnt2) →
      ∀ r ∈ p2, yearOK r = true := by
  induction rows with
  | nil =>
    intro c p cnt p2 cnt2 hp h r hr
    simp only [processBatch] at h
    obtain ⟨rfl, rfl⟩ : p = p2 ∧ cnt = cnt2 := by
      constructor <;> injection h with h1 <;> simp_all
    exact hp r hr
  | cons row rest ih =>
    intro c p cnt p2 cnt2 hp h r hr
    simp only [processBatch, processRow] at h
    by_cases hf : fails row = true
    · simp [hf] at h
    · rw [if_neg hf] at h
      by_cases hex : (hasShowId c row.show_id || hasShowId p row.show_id) = true
      · rw [if_pos hex] at h
        exact ih c p { cnt with skipped := cnt.skipped + 1 } p2 cnt2 hp h r hr
      · rw [if_neg hex] at h
        refine ih c (p ++ [buildContent row])
          { cnt with inserted := cnt.inserted + 1 } p2 cnt2 ?_ h r hr
        intro x hx
        rcases List.mem_append.mp hx with hx | hx
        · exact hp x hx
        · rw [List.mem_singleton.mp hx]
          exact buildContent_yearOK row

theorem runBatches_year (fails : CsvRow → Bool) (bs : List (List CsvRow)) :
    ∀ (c : List NetflixContent) (cnt : ImportCounts),
      (∀ r ∈ c, yearOK r = true) →
      ∀ r ∈ (runBatches fails bs c cnt).store, yearOK r = true := by
  induction bs with
  | nil => intro c cnt hc r hr; exact hc r hr
  | cons b rest ih =>
    intro c cnt hc r hr
    rcases hb : processBatch fails c b [] cnt with _ | ⟨p, cnt2⟩
    · simp only [runBatches, hb] at hr
      exact hc r hr
    · simp only [runBatches, hb] at hr
      refine ih (c ++ p) cnt2 ?_ r hr
      intro x hx
      rcases List.mem_append.mp hx with hx | hx
      · exact hc x hx
      · exact processBatch_year fails b c [] cnt p cnt2 (by simp) hb x hx

/-- C6 (confirmed): every record produced by the bulk importer stores a
release_year that is either a positive integer or null — an unparseable,
missing, zero, or negative year is stored as null, never as 0 or a
negative number — and if the store satisfies this invariant before a bulk
load, it satisfies it afterwards, whatever rows fail. -/
theorem c6_release_year (fails : CsvRow → Bool) (rows : List CsvRow)
    (store : List NetflixContent) (h : ∀ r ∈ store, yearOK r = true) :
    (∀ row, yearOK (buildContent row) = true) ∧
      ∀ r ∈ (load_netflix_data_from_csv fails rows store).store, yearOK r = true :=
  ⟨buildContent_yearOK, runBatches_year fails (chunkRows rows) store ⟨0, 0, 0⟩ h⟩

/-- Witness for `c6_release_year`: the rows with a negative and a zero
parsed year build records satisfying the year invariant (their stored year
is null). -/
theorem c6_release_year_witness :
    yearOK (buildContent negYearRow) = true ∧ yearOK (buildContent zeroYearRow) = true :=
  ⟨(c6_release_year noFailure [] [] (by simp)).1 negYearRow,
    (c6_release_year noFailure [] [] (by simp)).1 zeroYearRow⟩

theorem processBatch_updated (fails : CsvRow → Bool) (rows : List CsvRow) :
    ∀ (c p : List NetflixContent) (cnt : ImportCounts) p2 cnt2,
      processBatch fails c rows p cnt = some (p2, cnt2) →
      cnt2.updated = cnt.updated := by
  induction rows with
  | nil =>
    intro c p cnt p2 cnt2 h
    simp only [processBatch] at h
    obtain rfl : cnt = cnt2 := by injection h with h1; simp_all
    rfl
  | cons row rest ih =>
    intro c p cnt p2 cnt2 h
    simp only [processBatch, processRow] at h
    by_cases hf : fails row = true
    · simp [hf] at h
    · rw [if_neg hf] at h
      by_cases hex : (hasShowId c row.show_id || hasShowId p row.show_id) = true
      · rw [if_pos hex] at h
        exact ih c p { cnt with skipped := cnt.skipped + 1 } p2 cnt2 h
      · rw [if_neg hex] at h
        exact ih c (p ++ [buildContent row])
          { cnt with inserted := cnt.inserted + 1 } p2 cnt2 h

theorem runBatches_updated (fails : CsvRow → Bool) (bs : List (List CsvRow)) :
    ∀ (c : List NetflixContent) (cnt : ImportCounts),
      (runBatches fails bs c cnt).counts.updated = cnt.updated := by
  induction bs with
  | nil => intro c cnt; rfl
  | cons b rest ih =>
    intro c cnt
    rcases hb : processBatch fails c b [] cnt with _ | ⟨p, cnt2⟩
    · simp [runBatches, hb]
    · simp only [runBatches, hb]
      rw [ih (c ++ p) cnt2, processBatch_updated fails b c [] cnt p cnt2 hb]

/-- C9 (confirmed): for every successful bulk import run, the `updated`
counter in the import result equals 0 — no code path ever increments it. -/
theorem c9_updated_zero (fails : CsvRow → Bool) (rows : List CsvRow)
    (store : List NetflixContent)
    (_h : (load_netflix_data_from_csv fails rows store).ok = true) :
    (load_netflix_data_from_csv fails rows store).counts.updated = 0 :=
  runBatches_updated fails (chunkRows rows) store ⟨0, 0, 0⟩

/-- Witness for `c9_updated_zero` on a concrete successful one-row run. -/
theorem c9_updated_zero_witness :
    (load_netflix_data_from_csv noFailure [goodYearRow] []).counts.updated = 0 :=
  c9_updated_zero noFailure [goodYearRow] [] (by decide)

theorem processBatch_of_fails (fails : CsvRow → Bool) (rows : List CsvRow) :
    ∀ (c p : List NetflixContent) (cnt : ImportCounts)
      (x : List NetflixContent × ImportCounts),
      processBatch fails c rows p cnt = some x →
      processBatch noFailure c rows p cnt = some x := by
  induction rows with
  | nil => intro c p cnt x h; exact h
  | cons row rest ih =>
    intro c p cnt x h
    simp only [processBatch, processRow] at h ⊢
    by_cases hf : fails row = true
    · simp [hf] at h
    · rw [if_neg hf] at h
      show (match (if noFailure row = true then none else
          if hasShowId c row.show_id || hasShowId p row.show_id then
            some (p, { cnt with skipped := cnt.skipped + 1 })
          else
            some (p ++ [buildContent row],
              { cnt with inserted := cnt.inserted + 1 })) with
        | none => none
        | some (pending2, cnt2) => processBatch noFailure c rest pending2 cnt2) = some x
      rw [if_neg (by simp [noFailure])]
      by_cases hex : (hasShowId c row.show_id || hasShowId p row.show_id) = true
      · rw [if_pos hex] at h ⊢
        exact ih c p { cnt with skipped := cnt.skipped + 1 } x h
      · rw [if_neg hex] at h ⊢
        exact ih c (p ++ [buildContent row])
          { cnt with inserted := cnt.inserted + 1 } x h

theorem runBatches_error_prefix (fails : CsvRow → Bool) (bs : List (List CsvRow)) :
    ∀ (c : List NetflixContent) (cnt : ImportCounts),
      (runBatches fails bs c cnt).ok = false →
      ∃ k, (runBatches noFailure (bs.take k) c cnt).ok = true ∧
        (runBatches noFailure (bs.take k) c cnt).store =
          (runBatches fails bs c cnt).store := by
  induction bs with
  | nil => intro c cnt h; simp [runBatches] at h
  | cons b rest ih =>
    intro c cnt h
    rcases hb : processBatch fails c b [] cnt with _ | ⟨p, cnt2⟩
    · refine ⟨0, rfl, ?_⟩
      simp [runBatches, hb]
    · simp only [runBatches, hb] at h ⊢
      obtain ⟨k, hok, hstore⟩ := ih (c ++ p) cnt2 h
      refine ⟨k + 1, ?_, ?_⟩
      · rw [List.take_succ_cons]
        simp only [runBatches, processBatch_of_fails fails b c [] cnt (p, cnt2) hb]
        exact hok
      · rw [List.take_succ_cons]
        simp only [runBatches, processBatch_of_fails fails b c [] cnt (p, cnt2) hb]
        exact hstore

/-- C8 (confirmed): if any row of a bulk import fails (any parse or store
error), the importer rolls back the in-flight batch and re-raises: the
resulting store is exactly the store of a SUCCESSFUL import of the first k
committed batches for some k — previously committed batches are intact and
no record of the failed batch remains. -/
theorem c8_rollback (fails : CsvRow → Bool) (rows : List CsvRow)
    (store : List NetflixContent)
    (h : (load_netflix_data_from_csv fails rows store).ok = false) :
    ∃ k, (runBatches noFailure ((chunkRows rows).take k) store ⟨0, 0, 0⟩).ok = true ∧
      (runBatches noFailure ((chunkRows rows).take k) store ⟨0, 0, 0⟩).store =
        (load_netflix_data_from_csv fails rows store).store :=
  runBatches_error_prefix fails (chunkRows rows) store ⟨0, 0, 0⟩ h

/-- Witness for `c8_rollback`: a two-row import whose second row raises
fails, and its final store is that of a successful prefix import. -/
theorem c8_rollback_witness :
    ∃ k, (runBatches noFailure
          ((chunkRows [goodYearRow, poisonRow]).take k) [] ⟨0, 0, 0⟩).ok = true ∧
      (runBatches noFailure
          ((chunkRows [goodYearRow, poisonRow]).take k) [] ⟨0, 0, 0⟩).store =
        (load_netflix_data_from_csv failsPoison [goodYearRow, poisonRow] []).store :=
  c8_rollback failsPoison [goodYearRow, poisonRow] [] (by decide)
